import Mathlib

/-!
Verification of the readme-generator file collection and selection pipeline.

The development shallowly embeds the Python sources:
  * `readmegen/collector/collector.py` — string sanitization, truncation and
    the directory-tree collection walk (`sanitize_env`, `head_lines`,
    `read_with_rules`, `should_include`, `is_lock_like`, `collect`);
  * `app.py` — the threshold selection stage (`build_selected`) and its empty
    fallback in `api_generate`.

Python strings are modelled as `String` (a wrapper over `List Char`); every
Python string primitive used by the sources (`str.splitlines`, `str.strip`,
`str.lstrip`, `str.startswith`, `in`, `str.split("=", 1)[0]`, `"\n".join`,
`pathlib.Path.suffix`, `str.lower`, `sorted`) is given an executable
character-level definition below.  Machine-level aspects that the claims
need (UTF-8 decoding with `errors="ignore"`) are modelled over byte lists
(`List Nat`).
-/

namespace ReadmeGen

/-! ### Python string primitives -/

/-- The line-boundary characters recognised by Python's `str.splitlines`
(`\n`, `\r`, `\v`, `\f`, FS, GS, RS, NEL, LINE SEPARATOR, PARAGRAPH
SEPARATOR; `\r\n` is treated as a single boundary by `splitlinesGo`). -/
def pyLineBoundary (c : Char) : Bool :=
  c = '\n' || c = '\r' || c = '\x0b' || c = '\x0c' ||
  c = '\x1c' || c = '\x1d' || c = '\x1e' || c = '\x85' ||
  c.toNat = 0x2028 || c.toNat = 0x2029

/-- Worker for `splitlines`: `acc` holds the (reversed) characters of the
line currently being scanned. -/
def splitlinesGo : List Char → List Char → List (List Char)
  | [], acc => if acc.isEmpty then [] else [acc.reverse]
  | c :: rest, acc =>
      if pyLineBoundary c then
        match rest with
        | c2 :: rest2 =>
            if c = '\r' && c2 = '\n' then acc.reverse :: splitlinesGo rest2 []
            else acc.reverse :: splitlinesGo (c2 :: rest2) []
        | [] => [acc.reverse]
      else splitlinesGo rest (c :: acc)

/-- Python `text.splitlines()` on the character list of a string: split at
every line boundary, `\r\n` counting as one boundary; a trailing boundary
does not produce an extra empty line and the empty text has no lines. -/
def splitlines (l : List Char) : List (List Char) :=
  splitlinesGo l []

/-- Python `"\n".join(lines)` at the character-list level. -/
def joinNL : List (List Char) → List Char
  | [] => []
  | [l] => l
  | l :: ls => l ++ '\n' :: joinNL ls

/-- The whitespace characters of CPython's `str.strip`/`str.lstrip`
(Unicode whitespace: 0x09–0x0d, 0x1c–0x1f, space, NEL, NBSP, OGHAM SPACE
MARK, the 0x2000–0x200a spaces, LS, PS, NNBSP, MMSP, IDEOGRAPHIC SPACE). -/
def pyIsSpace (c : Char) : Bool :=
  c = ' ' || c = '\t' || c = '\n' || c = '\x0b' || c = '\x0c' || c = '\r' ||
  c = '\x1c' || c = '\x1d' || c = '\x1e' || c = '\x1f' ||
  c = '\x85' || c = '\xa0' || c.toNat = 0x1680 ||
  (0x2000 ≤ c.toNat && c.toNat ≤ 0x200a) ||
  c.toNat = 0x2028 || c.toNat = 0x2029 || c.toNat = 0x202f ||
  c.toNat = 0x205f || c.toNat = 0x3000

/-- Python `s.strip()` at the character-list level. -/
def pyStripL (l : List Char) : List Char :=
  ((l.dropWhile pyIsSpace).reverse.dropWhile pyIsSpace).reverse

/-- Python `s.startswith(p)` at the character-list level. -/
def startsWithL (p l : List Char) : Bool :=
  p.isPrefixOf l

/-- Python `s.lower()`, restricted to ASCII letters (the filenames the
collector lowercases are ASCII). -/
def pyLowerChar (c : Char) : Char :=
  if 'A' ≤ c && c ≤ 'Z' then Char.ofNat (c.toNat + 32) else c

/-- Python `s.lower()` on a string. -/
def pyLower (s : String) : String :=
  ⟨s.data.map pyLowerChar⟩

/-- Index of the last `'.'` in a character list (Python `name.rfind('.')`),
`none` when absent. -/
def rfindDot (l : List Char) : Option Nat :=
  (l.reverse.findIdx? (fun c => c = '.')).map (fun j => l.length - 1 - j)

/-- Python `pathlib.Path(name).suffix`: the extension from the last dot, empty when
the last dot is the first character, absent, or the final character
(pathlib: `i = name.rfind('.'); name[i:] if 0 < i < len(name) - 1 else ''`). -/
def pySuffix (name : String) : String :=
  match rfindDot name.data with
  | some i => if 0 < i ∧ i + 1 < name.data.length then ⟨name.data.drop i⟩ else ""
  | none => ""

/-! ### collector.py: constants -/

def MAX_FILE_BYTES : Nat := 512 * 1024

def MAX_TOTAL_BYTES : Nat := 5 * 1024 * 1024

def LOCK_MAX_LINES : Nat := 200

def CONFIG_MAX_LINES : Nat := 800

/-! ### collector.py: policy sets

`collector.py` does `from readmegen.collector.import_filenames import *`; the
module `import_filenames.py` defining `INCLUDE_EXTS`, `KEY_FILENAMES`,
`LOCK_BASENAMES` and `SKIP_DIRS` is not part of the given sources, so the
four sets are a parameter (`Policy`) of every definition that uses them, and
a concrete instance is modelled from the spec. -/

structure Policy where
  INCLUDE_EXTS : List String
  KEY_FILENAMES : List String
  LOCK_BASENAMES : List String
  SKIP_DIRS : List String

/-- Modelled from the spec: the missing module
`readmegen/collector/import_filenames.py`.  The spec fixes membership of
`.py` files (`app.py` "500 bytes, always eligible"), `node_modules` in the
directory skip-list and `package-lock.json` as a lock basename (§8 example);
the remaining entries are representative of the spec's "fixed allow-list of
source/config/doc extensions", "key filenames" and "version control,
dependency, build-output, cache directories". -/
def defaultPolicy : Policy where
  INCLUDE_EXTS := [".py", ".md", ".txt", ".js", ".ts", ".tsx", ".jsx",
    ".json", ".yaml", ".yml", ".toml", ".cfg", ".ini", ".sh", ".html", ".css"]
  KEY_FILENAMES := ["Dockerfile", "docker-compose.yml", "Makefile",
    "package.json", "pyproject.toml", "requirements.txt", "package-lock.json"]
  LOCK_BASENAMES := ["package-lock.json", "poetry.lock", "yarn.lock",
    "Pipfile.lock", "pnpm-lock.yaml", "uv.lock", "Cargo.lock", "composer.lock"]
  SKIP_DIRS := [".git", "node_modules", "__pycache__", ".venv", "venv",
    "dist", "build", ".mypy_cache", ".pytest_cache", ".idea", ".vscode"]

/-! ### collector.py: pure helpers -/

/-- Source `should_include(path)`: eligible iff the suffix is in `INCLUDE_EXTS`, or
the basename is in `KEY_FILENAMES`, or the basename starts with `.env`.
The Python function receives the full path but inspects only
`path.suffix` and `path.name`, so the model takes the basename. -/
def should_include (P : Policy) (name : String) : Bool :=
  P.INCLUDE_EXTS.contains (pySuffix name) ||
  P.KEY_FILENAMES.contains name ||
  startsWithL ".env".data name.data

/-- The placeholder `<YOUR_VALUE>` substituted for `.env` values. -/
def placeholder : List Char := "<YOUR_VALUE>".data

/-- Python `line.split("=", 1)[0]` for a line that contains `=`: the text
before the first `=`. -/
def beforeEq (line : List Char) : List Char :=
  line.takeWhile (fun c => c ≠ '=')

/-- One line of `sanitize_env`: if the line contains `=` and its
left-stripped form does not start with `#`, then with
`k = line.split("=", 1)[0].strip()` the line becomes `f"{k}=<YOUR_VALUE>"`
when `k` is non-empty and is kept unchanged when `k` is empty; all other
lines are kept unchanged. -/
def sanLine (line : List Char) : List Char :=
  if line.contains '=' && !(startsWithL ['#'] (line.dropWhile pyIsSpace)) then
    let k := pyStripL (beforeEq line)
    if k.isEmpty then line else k ++ '=' :: placeholder
  else line

/-- Source `sanitize_env(text)`: split into lines, rewrite each line by `sanLine`,
join with `"\n"`. -/
def sanitize_env (text : String) : String :=
  ⟨joinNL ((splitlines text.data).map sanLine)⟩

/-- Source `is_lock_like(p)`: basename in `LOCK_BASENAMES` or suffix `.lock`. -/
def is_lock_like (P : Policy) (name : String) : Bool :=
  P.LOCK_BASENAMES.contains name || pySuffix name = ".lock"

/-- The truncation marker appended by `head_lines`
(`"\n\n# ...truncated...\n"`). -/
def truncMarker : List Char := "\n\n# ...truncated...\n".data

/-- Source `head_lines(text, n)`: the text unchanged when it has at most `n` lines,
otherwise the first `n` lines joined by `"\n"` with the truncation marker
appended. -/
def head_lines (text : String) (n : Nat) : String :=
  let lines := splitlines text.data
  if lines.length ≤ n then text
  else ⟨joinNL (lines.take n) ++ truncMarker⟩

/-- The structured-config extensions `{".json", ".yaml", ".yml"}`. -/
def configExts : List String := [".json", ".yaml", ".yml"]

/-- Source `read_with_rules(p)` acting on the already-read decoded text `raw` of
the file with basename `name` (in the source the function itself performs
`read_bytes_as_text(p, MAX_FILE_BYTES)`; the byte-level read is modelled by
`read_bytes_as_text` below, and the collection model stores decoded text):
sanitize when the basename starts with `.env`, then head-truncate lock-like
files at `LOCK_MAX_LINES`, else structured-config files at
`CONFIG_MAX_LINES`, else pass through. -/
def read_with_rules (P : Policy) (name : String) (raw : String) : String :=
  let raw := if startsWithL ".env".data name.data then sanitize_env raw else raw
  if is_lock_like P name then head_lines raw LOCK_MAX_LINES
  else if configExts.contains (pySuffix name) then head_lines raw CONFIG_MAX_LINES
  else raw


/-! ### Python `sorted` on strings -/

/-- Python's `<=` on strings at the character-list level: lexicographic
comparison of code points. -/
def lexLe : List Char → List Char → Bool
  | [], _ => true
  | _ :: _, [] => false
  | a :: as, b :: bs => if a < b then true else if b < a then false else lexLe as bs

/-- Python's `<=` on strings (the order used by `sorted(filenames)`). -/
def strLe (a b : String) : Prop :=
  lexLe a.data b.data = true

instance : DecidableRel strLe :=
  fun a b => inferInstanceAs (Decidable (lexLe a.data b.data = true))

/-! ### collector.py: the collection walk

The filesystem is modelled as a finite tree: a directory holds a listing of
regular files (basename and the decoded text that
`read_bytes_as_text(p, MAX_FILE_BYTES)` would produce for that file — see
`read_bytes_as_text` below for the byte-level model) and a listing of
subdirectories.  `os.walk`'s listing order is the list order; the code
sorts `filenames` but not `dirnames`, and the `p.is_file()` guard is
modelled as true for every listed file. -/

inductive Dir : Type where
  | mk (files : List (String × String)) (subdirs : List (String × Dir))

/-- One collected document: the `{"source": rel, "content": text}` record
appended by `collect`. -/
structure Document where
  source : String
  content : String
deriving DecidableEq

/-- The mutable state of one `collect` run: the accumulated `docs`, the
`seen` set of relative paths, the running `total`, and whether the early
`return` (total budget reached) has fired. -/
structure CState where
  docs : List Document
  seen : List String
  total : Nat
  stopped : Bool
deriving DecidableEq

/-- The README-like basenames skipped when `include_readme` is false. -/
def READMES : List String := ["readme", "readme.md", "readme.rst", "readme.txt"]

/-- The slash-joined relative path `str(p.relative_to(rootp)).replace("\\\\", "/")`
of a file or directory named `n` under the relative directory `pre` (`""`
at the root; the backslash replacement is the identity on these paths). -/
def relPath (pre n : String) : String :=
  if pre = "" then n else pre ++ "/" ++ n

/-- The body of `collect`'s inner `for fn in sorted(filenames)` loop for a
single file: compute the relative path (forward-slash joined; the Windows
backslash replacement is the identity here), skip README-like names unless
opted in, skip ineligible or already-seen paths, otherwise read through
`read_with_rules`, append the document, mark seen, add the text length, and
record whether the total budget is reached (the early `return`). -/
def fileStep (P : Policy) (ir : Bool) (pre : String) (fn content : String)
    (st : CState) : CState :=
  if st.stopped then st
  else if !ir && READMES.contains (pyLower fn) then st
  else if !(should_include P fn) || st.seen.contains (relPath pre fn) then st
  else
    let text := read_with_rules P fn content
    { docs := st.docs ++ [⟨relPath pre fn, text⟩],
      seen := relPath pre fn :: st.seen,
      total := st.total + text.length,
      stopped := decide (MAX_TOTAL_BYTES ≤ st.total + text.length) }

/-- The files of one directory, processed in Python's
`for fn in sorted(filenames)` order; each file's content is looked up in
the directory listing by name (the read of `dp / fn`). -/
def walkFiles (P : Policy) (ir : Bool) (pre : String)
    (files : List (String × String)) (st : CState) : CState :=
  (List.insertionSort strLe (files.map Prod.fst)).foldl
    (fun s fn => fileStep P ir pre fn ((files.lookup fn).getD "") s) st

mutual

/-- Python `os.walk` from a directory: its own files first, then each kept
subdirectory in listing order (top-down, depth-first); subdirectories in
`SKIP_DIRS` are pruned before descending. -/
def walkDir (P : Policy) (ir : Bool) (pre : String) : Dir → CState → CState
  | Dir.mk files subdirs, st =>
      walkSubdirs P ir pre subdirs (walkFiles P ir pre files st)

/-- The subdirectory loop of `walkDir`. -/
def walkSubdirs (P : Policy) (ir : Bool) (pre : String) :
    List (String × Dir) → CState → CState
  | [], st => st
  | (n, d) :: rest, st =>
      let st2 := if P.SKIP_DIRS.contains n then st
                 else walkDir P ir (relPath pre n) d st
      walkSubdirs P ir pre rest st2

end

/-- Source `collect(root, include_readme)`: walk the tree from the (resolved) root
and return the accumulated document list (the source wraps it as
`{"docs": docs}`). -/
def collect (P : Policy) (root : Dir) (include_readme : Bool) : List Document :=
  (walkDir P include_readme "" root ⟨[], [], 0, false⟩).docs

/-- Sum of the Python `len(text)` of the collected contents. -/
def sumLen (docs : List Document) : Nat :=
  (docs.map (fun d => d.content.length)).sum

/-! ### collector.py: byte-level reading (`read_bytes_as_text`)

`f.read(max_bytes).decode("utf-8", errors="ignore")` is modelled over byte
lists.  The decoder is a byte-at-a-time UTF-8 automaton; on an ill-formed
sequence the bytes of the maximal subpart are dropped (CPython's
`errors="ignore"`), the offending byte being re-examined as a fresh lead
byte. -/

/-- Classify one lead byte: an ASCII character, or the state
`(remaining continuation bytes, partial code point, low, high)` where
`[low, high]` bounds the next byte (this encodes the surrogate, overlong
and out-of-range exclusions), or `none` for a byte that cannot begin any
UTF-8 sequence. -/
def utf8Lead (b : Nat) : Option (Char ⊕ (Nat × Nat × Nat × Nat)) :=
  if b < 0x80 then some (Sum.inl (Char.ofNat b))
  else if 0xc2 ≤ b ∧ b ≤ 0xdf then some (Sum.inr (1, b - 0xc0, 0x80, 0xbf))
  else if b = 0xe0 then some (Sum.inr (2, 0, 0xa0, 0xbf))
  else if (0xe1 ≤ b ∧ b ≤ 0xec) ∨ (0xee ≤ b ∧ b ≤ 0xef) then
    some (Sum.inr (2, b - 0xe0, 0x80, 0xbf))
  else if b = 0xed then some (Sum.inr (2, 0xd, 0x80, 0x9f))
  else if b = 0xf0 then some (Sum.inr (3, 0, 0x90, 0xbf))
  else if 0xf1 ≤ b ∧ b ≤ 0xf3 then some (Sum.inr (3, b - 0xf0, 0x80, 0xbf))
  else if b = 0xf4 then some (Sum.inr (3, 4, 0x80, 0x8f))
  else none

/-- UTF-8 decoding with `errors="ignore"`: invalid bytes are dropped and
decoding continues. -/
def decodeIgnoreGo : Option (Nat × Nat × Nat × Nat) → List Nat → List Char
  | _, [] => []
  | none, b :: rest =>
      match utf8Lead b with
      | some (Sum.inl c) => c :: decodeIgnoreGo none rest
      | some (Sum.inr p) => decodeIgnoreGo (some p) rest
      | none => decodeIgnoreGo none rest
  | some (need, cp, lo, hi), b :: rest =>
      if lo ≤ b ∧ b ≤ hi then
        let cp2 := cp * 64 + (b - 0x80)
        if need = 1 then Char.ofNat cp2 :: decodeIgnoreGo none rest
        else decodeIgnoreGo (some (need - 1, cp2, 0x80, 0xbf)) rest
      else
        match utf8Lead b with
        | some (Sum.inl c) => c :: decodeIgnoreGo none rest
        | some (Sum.inr p) => decodeIgnoreGo (some p) rest
        | none => decodeIgnoreGo none rest

/-- Strict UTF-8 decoding (the claim-side reference): `none` as soon as the
input is ill-formed. -/
def decodeStrictGo : Option (Nat × Nat × Nat × Nat) → List Nat → Option (List Char)
  | none, [] => some []
  | some _, [] => none
  | none, b :: rest =>
      match utf8Lead b with
      | some (Sum.inl c) => (decodeStrictGo none rest).map (fun cs => c :: cs)
      | some (Sum.inr p) => decodeStrictGo (some p) rest
      | none => none
  | some (need, cp, lo, hi), b :: rest =>
      if lo ≤ b ∧ b ≤ hi then
        let cp2 := cp * 64 + (b - 0x80)
        if need = 1 then (decodeStrictGo none rest).map (fun cs => Char.ofNat cp2 :: cs)
        else decodeStrictGo (some (need - 1, cp2, 0x80, 0xbf)) rest
      else none

/-- Python `bytes.decode("utf-8", errors="ignore")`. -/
def pyDecodeIgnore (bs : List Nat) : List Char :=
  decodeIgnoreGo none bs

/-- Strict (error-raising) UTF-8 decode, for comparison. -/
def pyDecodeStrict (bs : List Nat) : Option (List Char) :=
  decodeStrictGo none bs

/-- Source `read_bytes_as_text(path, max_bytes)`: the file's bytes are `some bs`,
or `none` for a file whose `open`/`read` raises; at most `max_bytes` bytes
are read and decoded permissively; any exception yields `""`. -/
def read_bytes_as_text (contents : Option (List Nat)) (max_bytes : Nat) : String :=
  match contents with
  | none => ""
  | some bs => ⟨pyDecodeIgnore (bs.take max_bytes)⟩

/-! ### app.py: threshold selection (`build_selected`) and fallback

Python dict rows are modelled as ordered association lists over a value
type covering the field types involved.  `FileAssessment` is the pydantic
model of `assessor.py` (its `include` field is named `includeFlag` because
`include` is a Lean keyword); the external scoring service is a parameter:
`build_selected` takes the assessment list that `assess_files(docs)`
returned, positionally aligned with `docs`. -/

inductive PyVal : Type where
  | s (v : String)
  | i (v : Int)
  | b (v : Bool)
deriving DecidableEq

/-- A Python dict with string keys, as an ordered association list. -/
abbrev Row := List (String × PyVal)

/-- The pydantic `FileAssessment` model: path, score (0–5), include flag,
rationale and summary. -/
structure FileAssessment where
  path : String
  score : Int
  includeFlag : Bool
  reason : String
  summary : String
deriving DecidableEq

/-- Pydantic `a.model_dump()`: the dict of the model's fields in declaration order. -/
def FileAssessment.model_dump (a : FileAssessment) : Row :=
  [("path", PyVal.s a.path), ("score", PyVal.i a.score),
   ("include", PyVal.b a.includeFlag), ("reason", PyVal.s a.reason),
   ("summary", PyVal.s a.summary)]

/-- Python `row.pop(k, None)`: remove the key. -/
def dictPop (r : Row) (k : String) : Row :=
  r.filter (fun kv => kv.1 ≠ k)

/-- Python `row[k] = v`: update in place when the key exists (keeping its
position), else append. -/
def dictSet (r : Row) (k : String) (v : PyVal) : Row :=
  if r.any (fun kv => kv.1 = k) then
    r.map (fun kv => if kv.1 = k then (k, v) else kv)
  else r ++ [(k, v)]

/-- Python `row.get(k)`. -/
def dictGet (r : Row) (k : String) : Option PyVal :=
  (r.find? (fun kv => kv.1 = k)).map Prod.snd

/-- Python truthiness of an optional dict value (`None` and empty/zero
values are falsy). -/
def pyTruthy : Option PyVal → Bool
  | none => false
  | some (PyVal.s v) => v ≠ ""
  | some (PyVal.i v) => v ≠ 0
  | some (PyVal.b v) => v

/-- The row built for one included `(assessment, document)` pair:
`row = a.model_dump()`, drop `summary`, attach the document's content, and
set `path` to the assessment's path when truthy, else the document's
source path (`row.get("path") or src.get("source", "UNKNOWN_PATH")`; a
collected document always has `source`). -/
def selectedRow (a : FileAssessment) (src : Document) : Row :=
  let row := dictPop a.model_dump "summary"
  let row := dictSet row "content" (PyVal.s src.content)
  dictSet row "path"
    (if pyTruthy (dictGet row "path") then (dictGet row "path").getD (PyVal.s "")
     else PyVal.s src.source)

/-- Source `build_selected(docs, relevance, logs)`: zip the assessments with the
documents positionally and keep a row for each pair with
`bool(a.include) and int(a.score) >= relevance` (the fields are typed, so
the `try`/`except` guarding attribute access never fires in the model; the
source also returns the assessment list and appends to `logs`, both
omitted). -/
def build_selected (assessments : List FileAssessment) (docs : List Document)
    (relevance : Int) : List Row :=
  (assessments.zip docs).foldl
    (fun sel p =>
      if p.1.includeFlag && decide (relevance ≤ p.1.score) then
        sel ++ [selectedRow p.1 p.2]
      else sel) []

/-- The selection that `api_generate` passes to the synthesizer: the
threshold selection, or — when it is empty — every collected document
verbatim as `{"path": d["source"], "content": d["content"]}`. -/
def api_generate_selection (assessments : List FileAssessment)
    (docs : List Document) (relevance : Int) : List Row :=
  let selected := build_selected assessments docs relevance
  if selected.isEmpty then
    docs.map (fun d => [("path", PyVal.s d.source), ("content", PyVal.s d.content)])
  else selected


/-! ### Derived definitions used by the statements -/

/-- The `.env` sanitization step of `read_with_rules` (its first `let`):
the text that enters the truncation stage. -/
def envSanitized (name raw : String) : String :=
  if startsWithL ".env".data name.data then sanitize_env raw else raw

/-- The line cap `read_with_rules` applies to a file of the given basename:
lock-like files are capped at `LOCK_MAX_LINES` (checked first), then
`.json`/`.yaml`/`.yml` files at `CONFIG_MAX_LINES`, other files have no
cap. -/
def applicable_cap (P : Policy) (name : String) : Option Nat :=
  if is_lock_like P name then some LOCK_MAX_LINES
  else if configExts.contains (pySuffix name) then some CONFIG_MAX_LINES
  else none

/-- Modelled from the spec (claim C5 as amended): the per-line contract of
`.env` sanitization, stated from the spec side — a line containing `=` that
is not a comment and whose key does not strip to empty becomes the
whitespace-stripped key followed by `=<YOUR_VALUE>`; comment lines, lines
without `=`, and lines with an empty/whitespace-only key pass through
unchanged. -/
def sanitize_line_spec (line : List Char) : List Char :=
  if line.contains '=' = false then line
  else if startsWithL ['#'] (line.dropWhile pyIsSpace) then line
  else if pyStripL (beforeEq line) = [] then line
  else pyStripL (beforeEq line) ++ '=' :: placeholder

/-- The invariant maintained by the collection walk: the running total is
the sum of the collected lengths; while the walk has not stopped the total
is below the budget; all documents but the last fit under the budget; the
source paths are duplicate-free; and `seen` holds exactly the collected
source paths. -/
def WalkInv (st : CState) : Prop :=
  st.total = sumLen st.docs ∧
  (st.stopped = false → st.total < MAX_TOTAL_BYTES) ∧
  sumLen st.docs.dropLast < MAX_TOTAL_BYTES ∧
  (st.docs.map Document.source).Nodup ∧
  (∀ r, st.seen.contains r = true ↔ r ∈ st.docs.map Document.source)

mutual

/-- Two directory trees that present the same unmodified directory to the
walk: within each directory the file listings are permutations of each
other (the OS may list a directory's entries in any order; real directory
listings carry no duplicate names), while subdirectories appear with the
same names in the same listing order and related contents. -/
inductive DirPerm : Dir → Dir → Prop where
  | mk : ∀ {f1 f2 : List (String × String)} {d1 d2 : List (String × Dir)},
      f1.Perm f2 → (f1.map Prod.fst).Nodup → SubsPerm d1 d2 →
      DirPerm (Dir.mk f1 d1) (Dir.mk f2 d2)

/-- Pointwise `DirPerm` on subdirectory listings. -/
inductive SubsPerm : List (String × Dir) → List (String × Dir) → Prop where
  | nil : SubsPerm [] []
  | cons : ∀ {n : String} {t1 t2 : Dir} {r1 r2 : List (String × Dir)},
      DirPerm t1 t2 → SubsPerm r1 r2 → SubsPerm ((n, t1) :: r1) ((n, t2) :: r2)

end

/-! ### Concrete inputs for counterexamples and witnesses -/

/-- A plain eligible file's maximal realizable text: exactly
`MAX_FILE_BYTES` characters, the most `read_bytes_as_text(p, MAX_FILE_BYTES)`
can produce for one (non-`.env`) file; `bigChunk_realizable` proves that a
real file consisting of `MAX_FILE_BYTES` `a`-bytes reads and decodes to
exactly this text. -/
def bigChunk : String := ⟨List.replicate MAX_FILE_BYTES 'a'⟩

/-- The root listing of `cexTree`: a 3-character `a.py` followed by ten
`.py` files of `MAX_FILE_BYTES` characters each — every content is
producible by the capped `read_bytes_as_text`. -/
def cexFiles : List (String × String) :=
  [("a.py", "aaa"),
   ("b01.py", bigChunk), ("b02.py", bigChunk), ("b03.py", bigChunk),
   ("b04.py", bigChunk), ("b05.py", bigChunk), ("b06.py", bigChunk),
   ("b07.py", bigChunk), ("b08.py", bigChunk), ("b09.py", bigChunk),
   ("b10.py", bigChunk)]

/-- A realizable root directory on which the collected contents overshoot
the budget: after `a.py` and the first nine big files the running total is
`3 + 9 * MAX_FILE_BYTES < MAX_TOTAL_BYTES`, so the walk is still running
when it reads `b10.py` (`10 * MAX_FILE_BYTES = MAX_TOTAL_BYTES`), and the
returned documents then total `MAX_TOTAL_BYTES + 3` characters. -/
def cexTree : Dir := Dir.mk cexFiles []

/-- A directory listing and the same listing in the reversed order. -/
def permTreeA : Dir := Dir.mk [("b.py", "x"), ("a.py", "y")] []

/-- See `permTreeA`. -/
def permTreeB : Dir := Dir.mk [("a.py", "y"), ("b.py", "x")] []

/-- A 201-line text (each line is `a`), one line over `LOCK_MAX_LINES`. -/
def lockRaw : String := ⟨joinNL (List.replicate 201 ['a'])⟩

/-! ### Lines produced by `splitlines` contain no boundary characters -/

theorem splitlinesGo_nil (acc : List Char) :
    splitlinesGo [] acc = if acc.isEmpty then [] else [acc.reverse] := rfl

theorem splitlinesGo_cons_nb {c : Char} (h : pyLineBoundary c = false) (rest acc : List Char) :
    splitlinesGo (c :: rest) acc = splitlinesGo rest (c :: acc) := by
  rcases rest with _ | ⟨c2, rest2⟩ <;> simp [splitlinesGo, h]

theorem splitlinesGo_lf (rest acc : List Char) :
    splitlinesGo ('\n' :: rest) acc = acc.reverse :: splitlinesGo rest [] := by
  have h1 : pyLineBoundary '\n' = true := by decide
  have h2 : (('\n' : Char) = '\r') = False := by simp
  rcases rest with _ | ⟨c2, rest2⟩
  · simp [splitlinesGo, h1]
  · simp [splitlinesGo, h1, h2]

theorem splitlinesGo_append_nb (l : List Char) (hl : ∀ c ∈ l, pyLineBoundary c = false) :
    ∀ (r acc : List Char), splitlinesGo (l ++ r) acc = splitlinesGo r (l.reverse ++ acc) := by
  induction l with
  | nil => intro r acc; simp
  | cons c l ih =>
      intro r acc
      have hc : pyLineBoundary c = false := hl c (by simp)
      rw [List.cons_append, splitlinesGo_cons_nb hc,
        ih (fun d hd => hl d (by simp [hd])) r (c :: acc)]
      simp

theorem splitlines_single {l : List Char} (hl : ∀ c ∈ l, pyLineBoundary c = false)
    (hne : l ≠ []) : splitlines l = [l] := by
  have := splitlinesGo_append_nb l hl [] []
  simp only [List.append_nil] at this
  rw [splitlines, this, splitlinesGo_nil]
  simp [hne]

theorem splitlines_joinNL (L : List (List Char))
    (h : ∀ l ∈ L, ∀ c ∈ l, pyLineBoundary c = false)
    (hlast : L.getLast? ≠ some []) : splitlines (joinNL L) = L := by
  induction L with
  | nil => rfl
  | cons x L ih =>
      rcases L with _ | ⟨y, L⟩
      · have hx : x ≠ [] := by
          intro e; subst e; simp at hlast
        exact splitlines_single (h x (by simp)) hx
      · have hx : ∀ c ∈ x, pyLineBoundary c = false := h x (by simp)
        have hrec := ih (fun l hl => h l (List.mem_cons_of_mem x hl))
          (by rwa [List.getLast?_cons_cons] at hlast)
        show splitlinesGo (joinNL (x :: y :: L)) [] = x :: y :: L
        have hj : joinNL (x :: y :: L) = x ++ '\n' :: joinNL (y :: L) := rfl
        rw [hj, splitlinesGo_append_nb x hx, splitlinesGo_lf]
        simpa using hrec

theorem splitlinesGo_nb : ∀ (n : Nat) (l acc : List Char), l.length ≤ n →
    (∀ c ∈ acc, pyLineBoundary c = false) →
    ∀ x ∈ splitlinesGo l acc, ∀ c ∈ x, pyLineBoundary c = false := by
  intro n
  induction n with
  | zero =>
      intro l acc hl hacc x hx
      have hnil : l = [] := List.length_eq_zero.mp (Nat.le_zero.mp hl)
      subst hnil
      rw [splitlinesGo_nil] at hx
      split at hx
      · simp at hx
      · simp only [List.mem_singleton] at hx
        subst hx
        intro c hc
        exact hacc c (List.mem_reverse.mp hc)
  | succ n ih =>
      intro l acc hl hacc x hx
      rcases l with _ | ⟨d, rest⟩
      · rw [splitlinesGo_nil] at hx
        split at hx
        · simp at hx
        · simp only [List.mem_singleton] at hx
          subst hx
          intro c hc
          exact hacc c (List.mem_reverse.mp hc)
      · by_cases hb : pyLineBoundary d
        · rcases rest with _ | ⟨c2, rest2⟩
          · simp only [splitlinesGo, hb, if_true, List.mem_singleton] at hx
            subst hx
            intro c hc
            exact hacc c (List.mem_reverse.mp hc)
          · have hlen1 : (c2 :: rest2).length ≤ n := by
              simp only [List.length_cons] at hl ⊢
              omega
            have hlen2 : rest2.length ≤ n := by
              simp only [List.length_cons] at hl
              omega
            simp only [splitlinesGo, hb, if_true] at hx
            split at hx
            · rcases List.mem_cons.mp hx with h' | h'
              · subst h'
                intro c hc
                exact hacc c (List.mem_reverse.mp hc)
              · exact ih rest2 [] hlen2 (by simp) x h'
            · rcases List.mem_cons.mp hx with h' | h'
              · subst h'
                intro c hc
                exact hacc c (List.mem_reverse.mp hc)
              · exact ih (c2 :: rest2) [] hlen1 (by simp) x h'
        · have hb' : pyLineBoundary d = false := by simpa using hb
          rw [splitlinesGo_cons_nb hb'] at hx
          have hlen : rest.length ≤ n := by
            simp only [List.length_cons] at hl
            omega
          have hacc' : ∀ c ∈ d :: acc, pyLineBoundary c = false := by
            intro c hc
            rcases List.mem_cons.mp hc with h' | h'
            · subst h'; exact hb'
            · exact hacc c h'
          exact ih rest (d :: acc) hlen hacc' x hx

theorem splitlines_nb {t : List Char} :
    ∀ x ∈ splitlines t, ∀ c ∈ x, pyLineBoundary c = false :=
  splitlinesGo_nb t.length t [] le_rfl (by simp)

/-! ### `pyStripL` facts -/

theorem head_dropWhile_false (p : Char → Bool) :
    ∀ (l : List Char) (c : Char), (l.dropWhile p).head? = some c → p c = false := by
  intro l
  induction l with
  | nil => intro c h; simp at h
  | cons a m ih =>
      intro c h
      rw [List.dropWhile_cons] at h
      split at h
      · exact ih c h
      · rename_i hpa
        simp only [List.head?_cons, Option.some.injEq] at h
        subst h
        simpa using hpa

theorem getLast?_of_suffix {l m : List Char} (h : l <:+ m) (hne : l ≠ []) :
    l.getLast? = m.getLast? := by
  rcases h with ⟨w, rfl⟩
  exact (List.getLast?_append_of_ne_nil w hne).symm

theorem head?_pyStripL_false {l : List Char} {c : Char}
    (h : (pyStripL l).head? = some c) : pyIsSpace c = false := by
  rw [pyStripL, List.head?_reverse] at h
  have hne : (l.dropWhile pyIsSpace).reverse.dropWhile pyIsSpace ≠ [] := by
    intro e; rw [e] at h; simp at h
  rw [getLast?_of_suffix (List.dropWhile_suffix pyIsSpace) hne,
    List.getLast?_reverse] at h
  exact head_dropWhile_false pyIsSpace _ c h

theorem getLast?_pyStripL_false {l : List Char} {c : Char}
    (h : (pyStripL l).getLast? = some c) : pyIsSpace c = false := by
  rw [pyStripL, List.getLast?_reverse] at h
  exact head_dropWhile_false pyIsSpace _ c h

theorem dropWhile_eq_self_of_head {p : Char → Bool} {l : List Char}
    (h : ∀ c, l.head? = some c → p c = false) : l.dropWhile p = l := by
  rcases l with _ | ⟨a, m⟩
  · rfl
  · rw [List.dropWhile_cons, if_neg]
    simp [h a rfl]

theorem pyStripL_eq_self {l : List Char}
    (h1 : ∀ c, l.head? = some c → pyIsSpace c = false)
    (h2 : ∀ c, l.getLast? = some c → pyIsSpace c = false) : pyStripL l = l := by
  rw [pyStripL, dropWhile_eq_self_of_head h1, dropWhile_eq_self_of_head
    (by intro c hc; rw [List.head?_reverse] at hc; exact h2 c hc), List.reverse_reverse]

theorem pyStripL_idem (l : List Char) : pyStripL (pyStripL l) = pyStripL l :=
  pyStripL_eq_self (fun _ hc => head?_pyStripL_false hc)
    (fun _ hc => getLast?_pyStripL_false hc)

theorem mem_of_mem_pyStripL {c : Char} {l : List Char} (h : c ∈ pyStripL l) : c ∈ l := by
  rw [pyStripL, List.mem_reverse] at h
  have h2 := (List.dropWhile_sublist pyIsSpace).subset h
  rw [List.mem_reverse] at h2
  exact (List.dropWhile_sublist pyIsSpace).subset h2

/-! ### `sanLine` facts -/

theorem placeholder_nb : ∀ c ∈ placeholder, pyLineBoundary c = false := by decide

theorem takeWhile_append_stop {p : Char → Bool} {l1 l2 : List Char} {a : Char}
    (h : ∀ c ∈ l1, p c = true) (ha : p a = false) :
    (l1 ++ a :: l2).takeWhile p = l1 := by
  induction l1 with
  | nil => simp [List.takeWhile_cons, ha]
  | cons b m ih =>
      simp only [List.cons_append, List.takeWhile_cons, h b (by simp), if_true]
      rw [ih (fun c hc => h c (by simp [hc]))]

theorem mem_of_mem_beforeEq {c : Char} {l : List Char} (h : c ∈ beforeEq l) : c ∈ l :=
  (List.takeWhile_sublist _).subset h

theorem sanLine_nb {l : List Char} (hl : ∀ c ∈ l, pyLineBoundary c = false) :
    ∀ c ∈ sanLine l, pyLineBoundary c = false := by
  intro c hc
  rw [sanLine] at hc
  split at hc
  · by_cases h2 : (pyStripL (beforeEq l)).isEmpty = true
    · simp only [h2, if_true] at hc
      exact hl c hc
    · simp only [h2, if_false] at hc
      rcases List.mem_append.mp hc with h' | h'
      · exact hl c (mem_of_mem_beforeEq (mem_of_mem_pyStripL h'))
      · rcases List.mem_cons.mp h' with h2' | h2'
        · subst h2'; decide
        · exact placeholder_nb c h2'
  · exact hl c hc

theorem sanLine_ne_nil {l : List Char} (h : l ≠ []) : sanLine l ≠ [] := by
  by_cases h1 : (l.contains '=' && !(startsWithL ['#'] (l.dropWhile pyIsSpace))) = true
  · by_cases h2 : (pyStripL (beforeEq l)).isEmpty = true
    · rw [sanLine, if_pos h1, if_pos h2]
      exact h
    · rw [sanLine, if_pos h1, if_neg h2]
      simp
  · rw [sanLine, if_neg h1]
    exact h

theorem sanLine_idem (l : List Char) : sanLine (sanLine l) = sanLine l := by
  by_cases h1 : (l.contains '=' && !(startsWithL ['#'] (l.dropWhile pyIsSpace))) = true
  · by_cases h2 : (pyStripL (beforeEq l)).isEmpty = true
    · have he : sanLine l = l := by
        rw [sanLine, if_pos h1, if_pos h2]
      rw [he]
      exact he
    · have ho : sanLine l = pyStripL (beforeEq l) ++ '=' :: placeholder := by
        rw [sanLine, if_pos h1, if_neg h2]
      set k := pyStripL (beforeEq l) with hk
      have hkeq : ∀ c ∈ k, (decide (c ≠ '=')) = true := by
        intro c hc
        simpa using List.mem_takeWhile_imp (mem_of_mem_pyStripL hc)
      have htw : beforeEq (k ++ '=' :: placeholder) = k :=
        takeWhile_append_stop hkeq (by decide)
      have hstrip : pyStripL k = k := by rw [hk]; exact pyStripL_idem _
      have hcont : ((k ++ '=' :: placeholder).contains '=') = true := by
        simp [List.contains]
      rw [ho]
      by_cases h3 : startsWithL ['#'] ((k ++ '=' :: placeholder).dropWhile pyIsSpace) = true
      · rw [sanLine, if_neg]
        simp [h3]
      · have h2' : k.isEmpty = false := by simpa using h2
        rw [sanLine, if_pos, htw, hstrip, if_neg]
        · simp [h2']
        · simp [hcont, h3]
  · have he : sanLine l = l := by rw [sanLine, if_neg h1]
    rw [he]
    exact he

theorem sanLine_eq_spec (l : List Char) : sanLine l = sanitize_line_spec l := by
  by_cases h1 : '=' ∈ l
  · by_cases h2 : startsWithL ['#'] (l.dropWhile pyIsSpace) = true
    · rw [sanLine, if_neg (by simp [h1, h2]), sanitize_line_spec,
        if_neg (by simp [h1]), if_pos h2]
    · have hc : (l.contains '=' && !(startsWithL ['#'] (l.dropWhile pyIsSpace))) = true := by
        simp [h1, h2]
      by_cases h3 : pyStripL (beforeEq l) = []
      · rw [sanLine, if_pos hc, if_pos (by simp [h3]), sanitize_line_spec,
          if_neg (by simp [h1]), if_neg h2, if_pos h3]
      · rw [sanLine, if_pos hc, if_neg (by simp [h3]), sanitize_line_spec,
          if_neg (by simp [h1]), if_neg h2, if_neg h3]
  · rw [sanLine, if_neg (by simp [h1]), sanitize_line_spec, if_pos (by simp [h1])]

theorem getLast?_map_lines (f : List Char → List Char) (l : List (List Char)) :
    (l.map f).getLast? = l.getLast?.map f := by
  rw [← List.head?_reverse, ← List.map_reverse, List.head?_map, List.head?_reverse]

/-! ### Claims C5, C9, C10 -/

/-- Claim C5 counterexample: `sanitize_env` does not preserve the key
verbatim — the key is stripped of surrounding whitespace, so
`" FOO =bar"` becomes `"FOO=<YOUR_VALUE>"` and not
`" FOO =<YOUR_VALUE>"`. -/
theorem sanitize_env_strips_key_cex :
    sanitize_env " FOO =bar" = "FOO=<YOUR_VALUE>" ∧
    sanitize_env " FOO =bar" ≠ " FOO =<YOUR_VALUE>" := by decide

/-- Claim C5 (amended): on every line that contains `=` and is not a
comment, `sanitize_env` replaces everything after the first `=` with the
fixed placeholder and replaces the text before the `=` with its
whitespace-stripped form (the key up to surrounding whitespace); lines
whose key strips to empty, comment lines, blank lines and lines without
`=` pass through unchanged — `sanitize_env` is exactly the line-wise
application of `sanitize_line_spec`. -/
theorem sanitize_env_line_spec (text : String) :
    sanitize_env text = ⟨joinNL ((splitlines text.data).map sanitize_line_spec)⟩ := by
  rw [sanitize_env]
  have h : sanLine = sanitize_line_spec := funext sanLine_eq_spec
  rw [h]

/-- Claim C9 counterexample: `sanitize_env` is not idempotent — sanitizing
`"\n\n"` gives `"\n"` (three lines become two joined by one newline), and
sanitizing again gives `""`. -/
theorem sanitize_env_not_idem_cex :
    sanitize_env (sanitize_env "\n\n") ≠ sanitize_env "\n\n" ∧
    sanitize_env "\n\n" = "\n" ∧ sanitize_env "\n" = "" := by decide

/-- Claim C9 (amended): `sanitize_env` is idempotent on every text that
does not end in a line boundary (equivalently, whose last line is
non-empty); re-sanitizing such a text yields it unchanged, and in
particular values already replaced by the placeholder are stable.  (On a
text ending in a line boundary, re-sanitization drops one trailing
newline, as the counterexample shows.) -/
theorem sanitize_env_idem (s : String)
    (h : (splitlines s.data).getLast? ≠ some []) :
    sanitize_env (sanitize_env s) = sanitize_env s := by
  have hnb : ∀ l ∈ splitlines s.data, ∀ c ∈ l, pyLineBoundary c = false := splitlines_nb
  have hnb' : ∀ l ∈ (splitlines s.data).map sanLine, ∀ c ∈ l, pyLineBoundary c = false := by
    intro l hl
    rcases List.mem_map.mp hl with ⟨x, hx, rfl⟩
    exact sanLine_nb (hnb x hx)
  have hlast' : ((splitlines s.data).map sanLine).getLast? ≠ some [] := by
    rw [getLast?_map_lines]
    intro hcon
    rcases Option.map_eq_some'.mp hcon with ⟨x, hx, hxe⟩
    have hxne : x ≠ [] := by
      intro e; subst e; exact h hx
    exact sanLine_ne_nil hxne hxe
  have hdata : (sanitize_env s).data = joinNL ((splitlines s.data).map sanLine) := rfl
  rw [sanitize_env, hdata, splitlines_joinNL _ hnb' hlast', List.map_map]
  have hcomp : sanLine ∘ sanLine = sanLine := funext sanLine_idem
  rw [hcomp]
  rfl

/-- Claim C9 witness: idempotence at the two-line text `"A=1\nB"` (no
trailing newline). -/
theorem sanitize_env_idem_witness :
    sanitize_env (sanitize_env "A=1\nB") = sanitize_env "A=1\nB" :=
  sanitize_env_idem "A=1\nB" (by decide)

/-- Claim C10: a single line whose text before the first `=` strips to
empty (for example `"=secret123"`) is returned unchanged by
`sanitize_env`: the value after the `=` is not replaced. -/
theorem sanitize_env_empty_key (s : String)
    (hb : ∀ c ∈ s.data, pyLineBoundary c = false)
    (hc : s.data.contains '=' = true)
    (hk : pyStripL (beforeEq s.data) = []) :
    sanitize_env s = s := by
  obtain ⟨d⟩ := s
  have hd : (String.mk d).data = d := rfl
  rw [hd] at hb hc hk
  have hne : d ≠ [] := by
    intro e
    subst e
    simp at hc
  have hsingle : splitlines d = [d] := splitlines_single hb hne
  show (⟨joinNL ((splitlines d).map sanLine)⟩ : String) = ⟨d⟩
  rw [hsingle]
  have hmem : '=' ∈ d := by simpa using hc
  have hline : sanLine d = d := by
    by_cases h2 : startsWithL ['#'] (d.dropWhile pyIsSpace) = true
    · rw [sanLine, if_neg (by simp [h2])]
    · rw [sanLine, if_pos (by simp [hmem, h2]), if_pos (by simp [hk])]
  simp [hline, joinNL]

/-- Claim C10 witness: `"=secret123"` is unchanged. -/
theorem sanitize_env_empty_key_witness :
    sanitize_env "=secret123" = "=secret123" :=
  sanitize_env_empty_key "=secret123" (by decide) (by decide) (by decide)

/-! ### Claims C2, C3 -/

theorem foldl_select_eq {α β : Type} (pred : β → Bool) (row : β → α) :
    ∀ (l : List β) (acc : List α),
      l.foldl (fun sel p => if pred p then sel ++ [row p] else sel) acc
        = acc ++ (l.filter pred).map row := by
  intro l
  induction l with
  | nil => intro acc; simp
  | cons x l ih =>
      intro acc
      by_cases hx : pred x
      · simp [List.foldl_cons, hx, ih]
      · simp [List.foldl_cons, hx, ih]

theorem build_selected_eq_filterMap (assessments : List FileAssessment)
    (docs : List Document) (relevance : Int) :
    build_selected assessments docs relevance
      = ((assessments.zip docs).filter
          (fun p => p.1.includeFlag && decide (relevance ≤ p.1.score))).map
          (fun p => selectedRow p.1 p.2) := by
  rw [build_selected]
  simpa using foldl_select_eq
    (fun p : FileAssessment × Document => p.1.includeFlag && decide (relevance ≤ p.1.score))
    (fun p => selectedRow p.1 p.2) (assessments.zip docs) []

/-- Claim C2: a positionally paired (assessment, document) pair contributes
a row to `build_selected`'s selection iff the assessment's include flag is
true and its score is at least the threshold — the selection is exactly
the zipped pair list filtered by that condition and mapped to the
selected row. -/
theorem build_selected_iff (assessments : List FileAssessment)
    (docs : List Document) (relevance : Int) :
    build_selected assessments docs relevance
      = ((assessments.zip docs).filter
          (fun p => p.1.includeFlag && decide (relevance ≤ p.1.score))).map
          (fun p => selectedRow p.1 p.2) :=
  build_selected_eq_filterMap assessments docs relevance

/-- Claim C3: when no (assessment, document) pair passes the threshold
(`include` and `score >= relevance`), `api_generate` falls back to the full
collected document list in order, each item carrying exactly the
document's path and content. -/
theorem api_generate_fallback (assessments : List FileAssessment)
    (docs : List Document) (relevance : Int)
    (_h1 : docs ≠ [])
    (h2 : ∀ p ∈ assessments.zip docs,
      ¬(p.1.includeFlag = true ∧ relevance ≤ p.1.score)) :
    api_generate_selection assessments docs relevance
      = docs.map (fun d => [("path", PyVal.s d.source), ("content", PyVal.s d.content)]) := by
  have hfil : (assessments.zip docs).filter
      (fun p => p.1.includeFlag && decide (relevance ≤ p.1.score)) = [] := by
    rw [List.filter_eq_nil_iff]
    intro p hp hcon
    simp only [Bool.and_eq_true, decide_eq_true_eq] at hcon
    exact h2 p hp hcon
  have hsel : build_selected assessments docs relevance = [] := by
    rw [build_selected_eq_filterMap, hfil]
    rfl
  rw [api_generate_selection, hsel]
  simp

/-- Claim C3 witness: one document whose assessment has `include = false`
falls back to the document itself. -/
theorem api_generate_fallback_witness :
    api_generate_selection [⟨"x.py", 1, false, "r", "s"⟩] [⟨"x.py", "body"⟩] 3
      = [[("path", PyVal.s "x.py"), ("content", PyVal.s "body")]] :=
  api_generate_fallback [⟨"x.py", 1, false, "r", "s"⟩] [⟨"x.py", "body"⟩] 3
    (by simp) (by decide)

/-! ### Claim C4 -/

theorem head_lines_spec (t : String) (n : Nat) :
    head_lines t n = if (splitlines t.data).length ≤ n then t
      else ⟨joinNL ((splitlines t.data).take n) ++ truncMarker⟩ := by
  rw [head_lines]

theorem read_with_rules_eq_cap {P : Policy} {name : String} {n : Nat}
    (h : applicable_cap P name = some n) (raw : String) :
    read_with_rules P name raw = head_lines (envSanitized name raw) n := by
  rw [applicable_cap] at h
  by_cases hl : is_lock_like P name = true
  · rw [if_pos hl] at h
    injection h with hn
    subst hn
    simp only [read_with_rules, envSanitized, hl, if_true]
  · rw [if_neg hl] at h
    by_cases hc : configExts.contains (pySuffix name) = true
    · rw [if_pos hc] at h
      injection h with hn
      subst hn
      simp only [read_with_rules, envSanitized, hl, hc, if_true, if_false,
        Bool.false_eq_true]
    · rw [if_neg hc] at h
      simp at h

/-- Claim C4: for a file subject to a line cap (lock-like files at
`LOCK_MAX_LINES = 200`, checked first; else `.json`/`.yaml`/`.yml` files at
`CONFIG_MAX_LINES = 800`), `read_with_rules` returns the text entering the
truncation stage unchanged when it has at most the cap's lines, and
otherwise returns its first cap lines with the truncation marker appended,
so the content ends in the marker. -/
theorem read_with_rules_cap (P : Policy) (name raw : String) (n : Nat)
    (h : applicable_cap P name = some n) :
    (read_with_rules P name raw
      = (if (splitlines (envSanitized name raw).data).length ≤ n
         then envSanitized name raw
         else ⟨joinNL ((splitlines (envSanitized name raw).data).take n) ++ truncMarker⟩))
    ∧ ((splitlines (envSanitized name raw).data).length > n →
        ∃ q, (read_with_rules P name raw).data = q ++ truncMarker) := by
  have he := read_with_rules_eq_cap h raw
  constructor
  · rw [he, head_lines_spec]
  · intro hgt
    rw [he, head_lines_spec, if_neg (by omega)]
    exact ⟨joinNL ((splitlines (envSanitized name raw).data).take n), rfl⟩

set_option maxRecDepth 4000 in
/-- Claim C4 witness: a 201-line `.lock` file is truncated and ends in the
marker. -/
theorem read_with_rules_cap_witness :
    ∃ q, (read_with_rules defaultPolicy "x.lock" lockRaw).data = q ++ truncMarker :=
  (read_with_rules_cap defaultPolicy "x.lock" lockRaw 200 (by decide)).2 (by decide)

/-! ### Claim C6 -/

theorem decode_agree : ∀ (bs : List Nat) (st : Option (Nat × Nat × Nat × Nat))
    (cs : List Char), decodeStrictGo st bs = some cs → decodeIgnoreGo st bs = cs := by
  intro bs
  induction bs with
  | nil =>
      intro st cs h
      rcases st with _ | p
      · simp only [decodeStrictGo, Option.some.injEq] at h
        subst h
        rfl
      · simp only [decodeStrictGo] at h
        exact absurd h (by simp)
  | cons b rest ih =>
      intro st cs h
      rcases st with _ | ⟨need, cp, lo, hi⟩
      · rcases hu : utf8Lead b with _ | cp'
        · rw [decodeStrictGo, hu] at h
          exact absurd h (by simp)
        · rcases cp' with c | p
          · rw [decodeStrictGo, hu] at h
            rcases Option.map_eq_some'.mp h with ⟨cs', hcs', rfl⟩
            rw [decodeIgnoreGo, hu, ih none cs' hcs']
          · rw [decodeStrictGo, hu] at h
            rw [decodeIgnoreGo, hu]
            exact ih _ cs h
      · by_cases hr : lo ≤ b ∧ b ≤ hi
        · by_cases hn : need = 1
          · rw [decodeStrictGo, if_pos hr, if_pos hn] at h
            rcases Option.map_eq_some'.mp h with ⟨cs', hcs', rfl⟩
            rw [decodeIgnoreGo, if_pos hr, if_pos hn, ih none cs' hcs']
          · rw [decodeStrictGo, if_pos hr, if_neg hn] at h
            rw [decodeIgnoreGo, if_pos hr, if_neg hn]
            exact ih _ cs h
        · rw [decodeStrictGo, if_neg hr] at h
          exact absurd h (by simp)

/-- Claim C6 (amended): reading and decoding never abort the walk — an
unreadable file is recovered locally as empty text, and decoding with
`errors="ignore"` is total, agreeing with the strict UTF-8 decode whenever
the bytes are well-formed (ill-formed bytes are dropped, not raised — and
not replaced, see the counterexample). -/
theorem read_bytes_never_raises (k : Nat) :
    read_bytes_as_text none k = "" ∧
    ∀ (bs : List Nat) (cs : List Char),
      pyDecodeStrict bs = some cs → pyDecodeIgnore bs = cs :=
  ⟨rfl, fun bs cs h => decode_agree bs none cs h⟩

/-- Claim C6 witness: the valid bytes `[72, 105]` decode identically under
both decoders. -/
theorem read_bytes_never_raises_witness :
    pyDecodeIgnore [72, 105] = ['H', 'i'] :=
  (read_bytes_never_raises 0).2 [72, 105] ['H', 'i'] (by decide)

/-- Claim C6 counterexample: the invalid byte `0xff` is dropped by the
code's `errors="ignore"` decode, not replaced with U+FFFD: decoding
`[65, 255, 66]` yields `"AB"`, which contains no replacement character. -/
theorem read_bytes_ignores_cex :
    read_bytes_as_text (some [65, 255, 66]) MAX_FILE_BYTES = "AB" ∧
    Char.ofNat 0xfffd ∉ (read_bytes_as_text (some [65, 255, 66]) MAX_FILE_BYTES).data := by
  decide

/-! ### Claims C1 and C7: the walk invariant -/

theorem sumLen_append (xs : List Document) (d : Document) :
    sumLen (xs ++ [d]) = sumLen xs + d.content.length := by
  simp [sumLen]

theorem fileStep_inv {P : Policy} {ir : Bool} {pre fn content : String}
    {st : CState} (h : WalkInv st) : WalkInv (fileStep P ir pre fn content st) := by
  rw [fileStep]
  split_ifs with hstop hread hskip
  · exact h
  · exact h
  · exact h
  · have hstop' : st.stopped = false := by simpa using hstop
    have hseen : st.seen.contains (relPath pre fn) = false := by
      by_contra hc
      apply hskip
      simp only [Bool.not_eq_false] at hc
      simp only [hc, Bool.or_true]
    have hnotmem : relPath pre fn ∉ st.docs.map Document.source := by
      intro hmem
      rw [← h.2.2.2.2 _] at hmem
      rw [hseen] at hmem
      exact absurd hmem (by simp)
    refine ⟨?_, ?_, ?_, ?_, ?_⟩
    · simp only [sumLen_append]
      rw [h.1]
    · intro hs
      simp only [decide_eq_false_iff_not] at hs
      show st.total + (read_with_rules P fn content).length < MAX_TOTAL_BYTES
      omega
    · simp only [List.dropLast_concat]
      rw [← h.1]
      exact h.2.1 hstop'
    · simp only [List.map_append, List.map_cons, List.map_nil]
      rw [List.nodup_append]
      refine ⟨h.2.2.2.1, by simp, ?_⟩
      intro r hr hr2
      simp only [List.mem_singleton] at hr2
      subst hr2
      exact hnotmem hr
    · intro r
      simp only [List.contains_cons, List.map_append, List.map_cons, List.map_nil,
        List.mem_append, List.mem_singleton, Bool.or_eq_true, beq_iff_eq]
      rw [h.2.2.2.2 r]
      tauto

theorem foldl_walkInv {f : CState → String → CState}
    (hf : ∀ st n, WalkInv st → WalkInv (f st n)) :
    ∀ (l : List String) (st : CState), WalkInv st → WalkInv (l.foldl f st) := by
  intro l
  induction l with
  | nil => intro st h; exact h
  | cons x l ih => intro st h; exact ih _ (hf st x h)

theorem walkFiles_inv {P : Policy} {ir : Bool} {pre : String}
    {files : List (String × String)} {st : CState} (h : WalkInv st) :
    WalkInv (walkFiles P ir pre files st) :=
  foldl_walkInv (fun _ _ hst => fileStep_inv hst) _ st h

mutual

theorem walkDir_inv (P : Policy) (ir : Bool) :
    ∀ (pre : String) (d : Dir) (st : CState), WalkInv st →
      WalkInv (walkDir P ir pre d st)
  | pre, Dir.mk files subdirs, st, h => by
      rw [walkDir]
      exact walkSubdirs_inv P ir pre subdirs _ (walkFiles_inv h)

theorem walkSubdirs_inv (P : Policy) (ir : Bool) :
    ∀ (pre : String) (l : List (String × Dir)) (st : CState), WalkInv st →
      WalkInv (walkSubdirs P ir pre l st)
  | pre, [], st, h => by
      rw [walkSubdirs]
      exact h
  | pre, (n, d) :: rest, st, h => by
      rw [walkSubdirs]
      refine walkSubdirs_inv P ir pre rest _ ?_
      by_cases hskip : P.SKIP_DIRS.contains n = true
      · rw [if_pos hskip]
        exact h
      · rw [if_neg hskip]
        exact walkDir_inv P ir _ d st h

end

theorem collect_inv (P : Policy) (root : Dir) (ir : Bool) :
    WalkInv (walkDir P ir "" root ⟨[], [], 0, false⟩) := by
  apply walkDir_inv
  refine ⟨rfl, ?_, ?_, by simp, ?_⟩
  · intro
    norm_num [MAX_TOTAL_BYTES]
  · norm_num [sumLen, MAX_TOTAL_BYTES]
  · intro r
    simp [List.contains]

/-- Claim C1 (amended): every returned document but the last fits under the
total budget — the sum of the content lengths of all but the last collected
document is strictly below `MAX_TOTAL_BYTES`, so the total may exceed the
budget by at most the final document's length; the walk stops early once
the running total reaches the budget, and partial results are valid. -/
theorem collect_budget (P : Policy) (root : Dir) (ir : Bool) :
    sumLen (collect P root ir).dropLast < MAX_TOTAL_BYTES := by
  rw [collect]
  exact (collect_inv P root ir).2.2.1

/-- Claim C7: a collection run returns no two documents with the same
normalized relative source path (the `seen` set skips later occurrences,
so the first occurrence wins). -/
theorem collect_nodup (P : Policy) (root : Dir) (ir : Bool) :
    ((collect P root ir).map Document.source).Nodup := by
  rw [collect]
  exact (collect_inv P root ir).2.2.2.1

/-! ### Claim C1: counterexample evaluation -/

theorem bigChunk_length : bigChunk.length = MAX_FILE_BYTES := by
  show (List.replicate MAX_FILE_BYTES 'a').length = MAX_FILE_BYTES
  exact List.length_replicate _ _

theorem utf8Lead_97 : utf8Lead 97 = some (Sum.inl 'a') := by decide

theorem decodeIgnore_replicate_97 :
    ∀ n : Nat, decodeIgnoreGo none (List.replicate n 97) = List.replicate n 'a' := by
  intro n
  induction n with
  | zero => rfl
  | succ n ih =>
      rw [List.replicate_succ, List.replicate_succ]
      simp only [decodeIgnoreGo, utf8Lead_97]
      rw [ih]

theorem bigChunk_realizable :
    read_bytes_as_text (some (List.replicate MAX_FILE_BYTES 97)) MAX_FILE_BYTES
      = bigChunk := by
  have htake : (List.replicate MAX_FILE_BYTES (97 : Nat)).take MAX_FILE_BYTES
      = List.replicate MAX_FILE_BYTES 97 := by simp
  simp only [read_bytes_as_text, pyDecodeIgnore, htake, decodeIgnore_replicate_97]
  rfl

theorem read_with_rules_plain {P : Policy} {name : String}
    (h1 : startsWithL ".env".data name.data = false)
    (h2 : is_lock_like P name = false)
    (h3 : configExts.contains (pySuffix name) = false) (raw : String) :
    read_with_rules P name raw = raw := by
  have h3' : pySuffix name ∉ configExts := by simpa using h3
  simp [read_with_rules, h1, h2, h3']

theorem fileStep_accept_plain {P : Policy} {ir : Bool} {fn content : String}
    {st : CState} (h0 : st.stopped = false)
    (h1 : (!ir && READMES.contains (pyLower fn)) = false)
    (h2 : (!(should_include P fn) || st.seen.contains fn) = false)
    (h3 : read_with_rules P fn content = content) :
    fileStep P ir "" fn content st
      = ⟨st.docs ++ [⟨fn, content⟩], fn :: st.seen,
          st.total + content.length,
          decide (MAX_TOTAL_BYTES ≤ st.total + content.length)⟩ := by
  rw [fileStep]
  rw [show relPath "" fn = fn from rfl]
  rw [if_neg (by rw [h0]; exact Bool.false_ne_true),
    if_neg (by rw [h1]; exact Bool.false_ne_true),
    if_neg (by rw [h2]; exact Bool.false_ne_true), h3]

theorem collect_cex_eval :
    collect defaultPolicy cexTree false = [⟨"a.py", "aaa"⟩, ⟨"b01.py", bigChunk⟩, ⟨"b02.py", bigChunk⟩, ⟨"b03.py", bigChunk⟩, ⟨"b04.py", bigChunk⟩, ⟨"b05.py", bigChunk⟩, ⟨"b06.py", bigChunk⟩, ⟨"b07.py", bigChunk⟩, ⟨"b08.py", bigChunk⟩, ⟨"b09.py", bigChunk⟩, ⟨"b10.py", bigChunk⟩] := by
  have hmap : cexFiles.map Prod.fst = ["a.py", "b01.py", "b02.py", "b03.py", "b04.py", "b05.py", "b06.py", "b07.py", "b08.py", "b09.py", "b10.py"] := rfl
  have hsort : List.insertionSort strLe (cexFiles.map Prod.fst)
      = ["a.py", "b01.py", "b02.py", "b03.py", "b04.py", "b05.py", "b06.py", "b07.py", "b08.py", "b09.py", "b10.py"] := by
    rw [hmap]
    decide
  have hlka : cexFiles.lookup "a.py" = some "aaa" := rfl
  have hlk1 : cexFiles.lookup "b01.py" = some bigChunk := rfl
  have hlk2 : cexFiles.lookup "b02.py" = some bigChunk := rfl
  have hlk3 : cexFiles.lookup "b03.py" = some bigChunk := rfl
  have hlk4 : cexFiles.lookup "b04.py" = some bigChunk := rfl
  have hlk5 : cexFiles.lookup "b05.py" = some bigChunk := rfl
  have hlk6 : cexFiles.lookup "b06.py" = some bigChunk := rfl
  have hlk7 : cexFiles.lookup "b07.py" = some bigChunk := rfl
  have hlk8 : cexFiles.lookup "b08.py" = some bigChunk := rfl
  have hlk9 : cexFiles.lookup "b09.py" = some bigChunk := rfl
  have hlk10 : cexFiles.lookup "b10.py" = some bigChunk := rfl
  have e0 : fileStep defaultPolicy false "" "a.py" "aaa" ⟨[], [], 0, false⟩
      = ⟨[⟨"a.py", "aaa"⟩], ["a.py"], 3, false⟩ := by decide
  have e1 : fileStep defaultPolicy false "" "b01.py" bigChunk
      ⟨[⟨"a.py", "aaa"⟩], ["a.py"], 3, false⟩
      = ⟨[⟨"a.py", "aaa"⟩, ⟨"b01.py", bigChunk⟩], ["b01.py", "a.py"], 524291, false⟩ := by
    rw [fileStep_accept_plain rfl (by decide) (by decide)
      (read_with_rules_plain (by decide) (by decide) (by decide) bigChunk),
      bigChunk_length]
    rfl
  have e2 : fileStep defaultPolicy false "" "b02.py" bigChunk
      ⟨[⟨"a.py", "aaa"⟩, ⟨"b01.py", bigChunk⟩], ["b01.py", "a.py"], 524291, false⟩
      = ⟨[⟨"a.py", "aaa"⟩, ⟨"b01.py", bigChunk⟩, ⟨"b02.py", bigChunk⟩], ["b02.py", "b01.py", "a.py"], 1048579, false⟩ := by
    rw [fileStep_accept_plain rfl (by decide) (by decide)
      (read_with_rules_plain (by decide) (by decide) (by decide) bigChunk),
      bigChunk_length]
    rfl
  have e3 : fileStep defaultPolicy false "" "b03.py" bigChunk
      ⟨[⟨"a.py", "aaa"⟩, ⟨"b01.py", bigChunk⟩, ⟨"b02.py", bigChunk⟩], ["b02.py", "b01.py", "a.py"], 1048579, false⟩
      = ⟨[⟨"a.py", "aaa"⟩, ⟨"b01.py", bigChunk⟩, ⟨"b02.py", bigChunk⟩, ⟨"b03.py", bigChunk⟩], ["b03.py", "b02.py", "b01.py", "a.py"], 1572867, false⟩ := by
    rw [fileStep_accept_plain rfl (by decide) (by decide)
      (read_with_rules_plain (by decide) (by decide) (by decide) bigChunk),
      bigChunk_length]
    rfl
  have e4 : fileStep defaultPolicy false "" "b04.py" bigChunk
      ⟨[⟨"a.py", "aaa"⟩, ⟨"b01.py", bigChunk⟩, ⟨"b02.py", bigChunk⟩, ⟨"b03.py", bigChunk⟩], ["b03.py", "b02.py", "b01.py", "a.py"], 1572867, false⟩
      = ⟨[⟨"a.py", "aaa"⟩, ⟨"b01.py", bigChunk⟩, ⟨"b02.py", bigChunk⟩, ⟨"b03.py", bigChunk⟩, ⟨"b04.py", bigChunk⟩], ["b04.py", "b03.py", "b02.py", "b01.py", "a.py"], 2097155, false⟩ := by
    rw [fileStep_accept_plain rfl (by decide) (by decide)
      (read_with_rules_plain (by decide) (by decide) (by decide) bigChunk),
      bigChunk_length]
    rfl
  have e5 : fileStep defaultPolicy false "" "b05.py" bigChunk
      ⟨[⟨"a.py", "aaa"⟩, ⟨"b01.py", bigChunk⟩, ⟨"b02.py", bigChunk⟩, ⟨"b03.py", bigChunk⟩, ⟨"b04.py", bigChunk⟩], ["b04.py", "b03.py", "b02.py", "b01.py", "a.py"], 2097155, false⟩
      = ⟨[⟨"a.py", "aaa"⟩, ⟨"b01.py", bigChunk⟩, ⟨"b02.py", bigChunk⟩, ⟨"b03.py", bigChunk⟩, ⟨"b04.py", bigChunk⟩, ⟨"b05.py", bigChunk⟩], ["b05.py", "b04.py", "b03.py", "b02.py", "b01.py", "a.py"], 2621443, false⟩ := by
    rw [fileStep_accept_plain rfl (by decide) (by decide)
      (read_with_rules_plain (by decide) (by decide) (by decide) bigChunk),
      bigChunk_length]
    rfl
  have e6 : fileStep defaultPolicy false "" "b06.py" bigChunk
      ⟨[⟨"a.py", "aaa"⟩, ⟨"b01.py", bigChunk⟩, ⟨"b02.py", bigChunk⟩, ⟨"b03.py", bigChunk⟩, ⟨"b04.py", bigChunk⟩, ⟨"b05.py", bigChunk⟩], ["b05.py", "b04.py", "b03.py", "b02.py", "b01.py", "a.py"], 2621443, false⟩
      = ⟨[⟨"a.py", "aaa"⟩, ⟨"b01.py", bigChunk⟩, ⟨"b02.py", bigChunk⟩, ⟨"b03.py", bigChunk⟩, ⟨"b04.py", bigChunk⟩, ⟨"b05.py", bigChunk⟩, ⟨"b06.py", bigChunk⟩], ["b06.py", "b05.py", "b04.py", "b03.py", "b02.py", "b01.py", "a.py"], 3145731, false⟩ := by
    rw [fileStep_accept_plain rfl (by decide) (by decide)
      (read_with_rules_plain (by decide) (by decide) (by decide) bigChunk),
      bigChunk_length]
    rfl
  have e7 : fileStep defaultPolicy false "" "b07.py" bigChunk
      ⟨[⟨"a.py", "aaa"⟩, ⟨"b01.py", bigChunk⟩, ⟨"b02.py", bigChunk⟩, ⟨"b03.py", bigChunk⟩, ⟨"b04.py", bigChunk⟩, ⟨"b05.py", bigChunk⟩, ⟨"b06.py", bigChunk⟩], ["b06.py", "b05.py", "b04.py", "b03.py", "b02.py", "b01.py", "a.py"], 3145731, false⟩
      = ⟨[⟨"a.py", "aaa"⟩, ⟨"b01.py", bigChunk⟩, ⟨"b02.py", bigChunk⟩, ⟨"b03.py", bigChunk⟩, ⟨"b04.py", bigChunk⟩, ⟨"b05.py", bigChunk⟩, ⟨"b06.py", bigChunk⟩, ⟨"b07.py", bigChunk⟩], ["b07.py", "b06.py", "b05.py", "b04.py", "b03.py", "b02.py", "b01.py", "a.py"], 3670019, false⟩ := by
    rw [fileStep_accept_plain rfl (by decide) (by decide)
      (read_with_rules_plain (by decide) (by decide) (by decide) bigChunk),
      bigChunk_length]
    rfl
  have e8 : fileStep defaultPolicy false "" "b08.py" bigChunk
      ⟨[⟨"a.py", "aaa"⟩, ⟨"b01.py", bigChunk⟩, ⟨"b02.py", bigChunk⟩, ⟨"b03.py", bigChunk⟩, ⟨"b04.py", bigChunk⟩, ⟨"b05.py", bigChunk⟩, ⟨"b06.py", bigChunk⟩, ⟨"b07.py", bigChunk⟩], ["b07.py", "b06.py", "b05.py", "b04.py", "b03.py", "b02.py", "b01.py", "a.py"], 3670019, false⟩
      = ⟨[⟨"a.py", "aaa"⟩, ⟨"b01.py", bigChunk⟩, ⟨"b02.py", bigChunk⟩, ⟨"b03.py", bigChunk⟩, ⟨"b04.py", bigChunk⟩, ⟨"b05.py", bigChunk⟩, ⟨"b06.py", bigChunk⟩, ⟨"b07.py", bigChunk⟩, ⟨"b08.py", bigChunk⟩], ["b08.py", "b07.py", "b06.py", "b05.py", "b04.py", "b03.py", "b02.py", "b01.py", "a.py"], 4194307, false⟩ := by
    rw [fileStep_accept_plain rfl (by decide) (by decide)
      (read_with_rules_plain (by decide) (by decide) (by decide) bigChunk),
      bigChunk_length]
    rfl
  have e9 : fileStep defaultPolicy false "" "b09.py" bigChunk
      ⟨[⟨"a.py", "aaa"⟩, ⟨"b01.py", bigChunk⟩, ⟨"b02.py", bigChunk⟩, ⟨"b03.py", bigChunk⟩, ⟨"b04.py", bigChunk⟩, ⟨"b05.py", bigChunk⟩, ⟨"b06.py", bigChunk⟩, ⟨"b07.py", bigChunk⟩, ⟨"b08.py", bigChunk⟩], ["b08.py", "b07.py", "b06.py", "b05.py", "b04.py", "b03.py", "b02.py", "b01.py", "a.py"], 4194307, false⟩
      = ⟨[⟨"a.py", "aaa"⟩, ⟨"b01.py", bigChunk⟩, ⟨"b02.py", bigChunk⟩, ⟨"b03.py", bigChunk⟩, ⟨"b04.py", bigChunk⟩, ⟨"b05.py", bigChunk⟩, ⟨"b06.py", bigChunk⟩, ⟨"b07.py", bigChunk⟩, ⟨"b08.py", bigChunk⟩, ⟨"b09.py", bigChunk⟩], ["b09.py", "b08.py", "b07.py", "b06.py", "b05.py", "b04.py", "b03.py", "b02.py", "b01.py", "a.py"], 4718595, false⟩ := by
    rw [fileStep_accept_plain rfl (by decide) (by decide)
      (read_with_rules_plain (by decide) (by decide) (by decide) bigChunk),
      bigChunk_length]
    rfl
  have e10d : (fileStep defaultPolicy false "" "b10.py" bigChunk
      ⟨[⟨"a.py", "aaa"⟩, ⟨"b01.py", bigChunk⟩, ⟨"b02.py", bigChunk⟩, ⟨"b03.py", bigChunk⟩, ⟨"b04.py", bigChunk⟩, ⟨"b05.py", bigChunk⟩, ⟨"b06.py", bigChunk⟩, ⟨"b07.py", bigChunk⟩, ⟨"b08.py", bigChunk⟩, ⟨"b09.py", bigChunk⟩], ["b09.py", "b08.py", "b07.py", "b06.py", "b05.py", "b04.py", "b03.py", "b02.py", "b01.py", "a.py"], 4718595, false⟩).docs
      = [⟨"a.py", "aaa"⟩, ⟨"b01.py", bigChunk⟩, ⟨"b02.py", bigChunk⟩, ⟨"b03.py", bigChunk⟩, ⟨"b04.py", bigChunk⟩, ⟨"b05.py", bigChunk⟩, ⟨"b06.py", bigChunk⟩, ⟨"b07.py", bigChunk⟩, ⟨"b08.py", bigChunk⟩, ⟨"b09.py", bigChunk⟩, ⟨"b10.py", bigChunk⟩] := by
    rw [fileStep_accept_plain rfl (by decide) (by decide)
      (read_with_rules_plain (by decide) (by decide) (by decide) bigChunk)]
    rfl
  rw [collect, cexTree, walkDir, walkSubdirs, walkFiles, hsort,
    List.foldl_cons, List.foldl_cons, List.foldl_cons, List.foldl_cons, List.foldl_cons, List.foldl_cons, List.foldl_cons, List.foldl_cons, List.foldl_cons, List.foldl_cons, List.foldl_cons, List.foldl_nil]
  rw [hlka, hlk1, hlk2, hlk3, hlk4, hlk5, hlk6, hlk7, hlk8, hlk9, hlk10]
  simp only [Option.getD_some]
  rw [e0, e1, e2, e3, e4, e5, e6, e7, e8, e9]
  exact e10d

theorem sum_cex_gt {s : String} (hs : s.length = MAX_FILE_BYTES) :
    MAX_TOTAL_BYTES < sumLen [⟨"a.py", "aaa"⟩, ⟨"b01.py", s⟩, ⟨"b02.py", s⟩, ⟨"b03.py", s⟩, ⟨"b04.py", s⟩, ⟨"b05.py", s⟩, ⟨"b06.py", s⟩, ⟨"b07.py", s⟩, ⟨"b08.py", s⟩, ⟨"b09.py", s⟩, ⟨"b10.py", s⟩] := by
  simp only [sumLen, List.map_cons, List.map_nil, List.sum_cons, List.sum_nil]
  rw [hs, show ("aaa" : String).length = 3 from rfl]
  simp only [MAX_TOTAL_BYTES, MAX_FILE_BYTES]
  omega

/-- Claim C1 counterexample: the budget check runs after the document is
appended, so the returned documents can total more than `MAX_TOTAL_BYTES`.
On a realizable root — a 3-character `a.py` and ten `.py` files of
`MAX_FILE_BYTES` characters each, the per-file maximum the capped
`read_bytes_as_text` can produce (`bigChunk_realizable`) — the walk is
still under budget when it reads the tenth big file, and the collected
content lengths then sum to `MAX_TOTAL_BYTES + 3`. -/
theorem collect_budget_cex :
    MAX_TOTAL_BYTES < sumLen (collect defaultPolicy cexTree false) := by
  rw [collect_cex_eval]
  exact sum_cex_gt bigChunk_length

/-! ### Claim C8: the lexicographic order used by `sorted(filenames)` -/

theorem lexLe_total : ∀ l m : List Char, lexLe l m = true ∨ lexLe m l = true := by
  intro l
  induction l with
  | nil => intro m; left; rfl
  | cons a as ih =>
      intro m
      rcases m with _ | ⟨b, bs⟩
      · right; rfl
      · rcases lt_trichotomy a b with h | h | h
        · left; simp [lexLe, h]
        · subst h
          rcases ih bs with h' | h'
          · left; simp [lexLe, lt_irrefl, h']
          · right; simp [lexLe, lt_irrefl, h']
        · right; simp [lexLe, h]

theorem lexLe_trans : ∀ l m n : List Char,
    lexLe l m = true → lexLe m n = true → lexLe l n = true := by
  intro l
  induction l with
  | nil => intro m n _ _; rfl
  | cons a as ih =>
      intro m n h1 h2
      rcases m with _ | ⟨b, bs⟩
      · simp [lexLe] at h1
      · rcases n with _ | ⟨c, cs⟩
        · simp [lexLe] at h2
        · rcases lt_trichotomy a b with hab | hab | hab
          · rcases lt_trichotomy b c with hbc | hbc | hbc
            · simp [lexLe, lt_trans hab hbc]
            · subst hbc; simp [lexLe, hab]
            · simp [lexLe, lt_asymm hbc, hbc] at h2
          · subst hab
            rcases lt_trichotomy a c with hbc | hbc | hbc
            · simp [lexLe, hbc]
            · subst hbc
              have h1' : lexLe as bs = true := by
                simpa [lexLe, lt_irrefl] using h1
              have h2' : lexLe bs cs = true := by
                simpa [lexLe, lt_irrefl] using h2
              simp [lexLe, lt_irrefl, ih bs cs h1' h2']
            · simp [lexLe, lt_asymm hbc, hbc] at h2
          · simp [lexLe, lt_asymm hab, hab] at h1

theorem lexLe_antisymm : ∀ l m : List Char,
    lexLe l m = true → lexLe m l = true → l = m := by
  intro l
  induction l with
  | nil =>
      intro m h1 h2
      rcases m with _ | ⟨b, bs⟩
      · rfl
      · simp [lexLe] at h2
  | cons a as ih =>
      intro m h1 h2
      rcases m with _ | ⟨b, bs⟩
      · simp [lexLe] at h1
      · rcases lt_trichotomy a b with hab | hab | hab
        · simp [lexLe, lt_asymm hab, hab] at h2
        · subst hab
          have h1' : lexLe as bs = true := by simpa [lexLe, lt_irrefl] using h1
          have h2' : lexLe bs as = true := by simpa [lexLe, lt_irrefl] using h2
          rw [ih bs h1' h2']
        · simp [lexLe, lt_asymm hab, hab] at h1

instance : IsTotal String strLe :=
  ⟨fun a b => lexLe_total a.data b.data⟩

instance : IsTrans String strLe :=
  ⟨fun a b c h1 h2 => lexLe_trans a.data b.data c.data h1 h2⟩

instance : IsAntisymm String strLe :=
  ⟨fun a b h1 h2 => by
    have hd := lexLe_antisymm a.data b.data h1 h2
    obtain ⟨da⟩ := a
    obtain ⟨db⟩ := b
    exact congrArg String.mk hd⟩

/-! ### Claim C8: the walk is invariant under directory listing order -/

theorem lookup_eq_of_perm {f1 f2 : List (String × String)} (h : f1.Perm f2)
    (hnd : (f1.map Prod.fst).Nodup) (n : String) :
    f1.lookup n = f2.lookup n := by
  induction h with
  | nil => rfl
  | cons x h ih =>
      rcases x with ⟨k, v⟩
      simp only [List.map_cons, List.nodup_cons] at hnd
      cases hnk : (n == k) <;> simp [List.lookup, hnk]
      exact ih hnd.2
  | swap x y l =>
      rcases x with ⟨k1, v1⟩
      rcases y with ⟨k2, v2⟩
      simp only [List.map_cons, List.nodup_cons, List.mem_cons] at hnd
      have hne : k2 ≠ k1 := fun e => hnd.1 (Or.inl e)
      cases hn2 : (n == k2) <;> cases hn1 : (n == k1) <;>
        simp [List.lookup, hn1, hn2]
      exact absurd (beq_iff_eq.mp hn2 ▸ beq_iff_eq.mp hn1 : k2 = k1) hne
  | trans h1 h2 ih1 ih2 =>
      rw [ih1 hnd, ih2 (((h1.map Prod.fst).nodup_iff).mp hnd)]

theorem foldl_ext_mem {α β : Type} {f g : α → β → α} :
    ∀ (l : List β), (∀ a, ∀ b ∈ l, f a b = g a b) → ∀ a, l.foldl f a = l.foldl g a := by
  intro l
  induction l with
  | nil => intro _ a; rfl
  | cons x l ih =>
      intro h a
      rw [List.foldl_cons, List.foldl_cons, h a x (by simp)]
      exact ih (fun a b hb => h a b (by simp [hb])) _

theorem walkFiles_congr {P : Policy} {ir : Bool} {pre : String}
    {f1 f2 : List (String × String)} (hper : f1.Perm f2)
    (hnd : (f1.map Prod.fst).Nodup) (st : CState) :
    walkFiles P ir pre f1 st = walkFiles P ir pre f2 st := by
  have hnames : (f1.map Prod.fst).Perm (f2.map Prod.fst) := hper.map _
  have hsorted : List.insertionSort strLe (f1.map Prod.fst)
      = List.insertionSort strLe (f2.map Prod.fst) :=
    @List.eq_of_perm_of_sorted String strLe _ _ _
      ((List.perm_insertionSort _ _).trans
        (hnames.trans (List.perm_insertionSort _ _).symm))
      (List.sorted_insertionSort _ _) (List.sorted_insertionSort _ _)
  rw [walkFiles, walkFiles, hsorted]
  apply foldl_ext_mem
  intro a b _
  rw [lookup_eq_of_perm hper hnd b]

mutual

theorem walkDir_congr (P : Policy) (ir : Bool) :
    ∀ {t1 t2 : Dir}, DirPerm t1 t2 → ∀ (pre : String) (st : CState),
      walkDir P ir pre t1 st = walkDir P ir pre t2 st
  | _, _, DirPerm.mk hper hnd hsubs, pre, st => by
      rw [walkDir, walkDir, walkFiles_congr hper hnd st]
      exact walkSubdirs_congr P ir hsubs pre _

theorem walkSubdirs_congr (P : Policy) (ir : Bool) :
    ∀ {s1 s2 : List (String × Dir)}, SubsPerm s1 s2 → ∀ (pre : String) (st : CState),
      walkSubdirs P ir pre s1 st = walkSubdirs P ir pre s2 st
  | _, _, SubsPerm.nil, _, _ => rfl
  | _, _, @SubsPerm.cons n t1 t2 r1 r2 hd hrest, pre, st => by
      rw [walkSubdirs, walkSubdirs]
      have hstep : (if P.SKIP_DIRS.contains n then st
            else walkDir P ir (relPath pre n) t1 st)
          = (if P.SKIP_DIRS.contains n then st
            else walkDir P ir (relPath pre n) t2 st) := by
        by_cases hskip : P.SKIP_DIRS.contains n = true
        · rw [if_pos hskip, if_pos hskip]
        · rw [if_neg hskip, if_neg hskip, walkDir_congr P ir hd (relPath pre n) st]
      rw [hstep]
      exact walkSubdirs_congr P ir hrest pre _

end

/-! ### Claim C8: files are processed in sorted order within a directory -/

theorem fileStep_docs (P : Policy) (ir : Bool) (fn content : String) (st : CState) :
    (fileStep P ir "" fn content st).docs = st.docs ∨
    (fileStep P ir "" fn content st).docs
      = st.docs ++ [⟨fn, read_with_rules P fn content⟩] := by
  rw [fileStep]
  split_ifs
  · left; rfl
  · left; rfl
  · left; rfl
  · right
    show st.docs ++ [⟨relPath "" fn, read_with_rules P fn content⟩] = _
    rw [show relPath "" fn = fn from rfl]

theorem walkFiles_sorted (P : Policy) (ir : Bool) (files : List (String × String)) :
    ∀ (ns : List String), List.Sorted strLe ns →
    ∀ (st : CState),
      List.Sorted (fun d e : Document => strLe d.source e.source) st.docs →
      (∀ d ∈ st.docs, ∀ n ∈ ns, strLe d.source n) →
      List.Sorted (fun d e : Document => strLe d.source e.source)
        ((ns.foldl (fun s fn => fileStep P ir "" fn ((files.lookup fn).getD "") s) st).docs) := by
  intro ns
  induction ns with
  | nil => intro _ st hs _; exact hs
  | cons fn ns ih =>
      intro hsort st hs hall
      rw [List.foldl_cons]
      have hsort' : List.Sorted strLe ns := hsort.of_cons
      have hfn : ∀ n ∈ ns, strLe fn n := (List.sorted_cons.mp hsort).1
      rcases fileStep_docs P ir fn ((files.lookup fn).getD "") st with hcase | hcase
      · refine ih hsort' _ (by rw [hcase]; exact hs) ?_
        intro d hd n hn
        rw [hcase] at hd
        exact hall d hd n (by simp [hn])
      · refine ih hsort' _ ?_ ?_
        · rw [hcase]
          rw [List.Sorted, List.pairwise_append]
          refine ⟨hs, by simp, ?_⟩
          intro d hd e he
          simp only [List.mem_singleton] at he
          subst he
          exact hall d hd fn (by simp)
        · intro d hd n hn
          rw [hcase] at hd
          rcases List.mem_append.mp hd with h' | h'
          · exact hall d h' n (by simp [hn])
          · simp only [List.mem_singleton] at h'
            subst h'
            exact hfn n hn

theorem collect_single_dir_sorted (P : Policy) (ir : Bool)
    (files : List (String × String)) :
    List.Sorted (fun d e : Document => strLe d.source e.source)
      (collect P (Dir.mk files []) ir) := by
  rw [collect, walkDir, walkSubdirs, walkFiles]
  exact walkFiles_sorted P ir files _ (List.sorted_insertionSort _ _)
    ⟨[], [], 0, false⟩ (by simp) (by simp)

/-- Claim C8: collection is deterministic — two runs over the same
unmodified directory tree (the same tree up to the OS listing order of the
files within each directory, which the code neutralizes by sorting
`filenames`) produce identical document lists; and within a directory the
files are processed in lexicographically sorted order, so a root
directory's documents are sorted by source path. -/
theorem collect_deterministic (P : Policy) (ir : Bool) :
    (∀ t1 t2 : Dir, DirPerm t1 t2 → collect P t1 ir = collect P t2 ir) ∧
    (∀ files : List (String × String),
      List.Sorted (fun d e : Document => strLe d.source e.source)
        (collect P (Dir.mk files []) ir)) := by
  constructor
  · intro t1 t2 h
    rw [collect, collect, walkDir_congr P ir h "" _]
  · intro files
    exact collect_single_dir_sorted P ir files

/-- Claim C8 witness: the same two files listed in the two possible orders
collect identically. -/
theorem collect_deterministic_witness :
    collect defaultPolicy permTreeA false = collect defaultPolicy permTreeB false :=
  (collect_deterministic defaultPolicy false).1 permTreeA permTreeB
    (DirPerm.mk (by decide) (by decide) SubsPerm.nil)

end ReadmeGen
